import Mathlib

/-!
Shallow embedding of `src/advanced-vector/vector.h` (templates `RawMemory<T>`
and `Vector<T>`).

Modelling conventions:
* A raw buffer pointer is modelled as `Option Nat`: `none` is `nullptr`, and
  `some id` is an allocated block identified by `id` (distinct allocations get
  distinct ids, so pointer equality is equality of these options).
* A `Vector<T>` state is modelled by its capacity (`data_.Capacity()`) together
  with the list of constructed elements in slots `[0, size_)`; `size_` is the
  length of that list.  Machine sizes (`size_t`) are modelled as `Nat`; the
  source never relies on `size_t` overflow.
* Element-level moves are value transfers: after `std::move` the destination
  holds the value.  Where object *lifetime* (construction / destruction of
  individual slots) matters — `Erase`'s `destroy_at`, the transfer loops during
  reallocation — a slot-level model `List (Option T)` is used: `some x` is a
  live object with value `x`, `none` is raw (unconstructed) memory.
* Operations that can throw are modelled with explicit failure oracles:
  `allocOk : Bool` (whether `operator new` succeeds) and
  `copyF : T → Option T` (the element copy constructor; `none` = it throws).
-/

namespace AdvVector

/-- Model of `RawMemory<T>`: the raw buffer pointer and the capacity.
The element type plays no role in the claims about `RawMemory` itself,
so the buffer is just an allocation identity. -/
structure RawMemory where
  buffer_ : Option Nat
  capacity_ : Nat
  deriving DecidableEq, Repr

/-- The default-constructed `RawMemory` (`buffer_ = nullptr`, `capacity_ = 0`). -/
def RawMemory.mkDefault : RawMemory := ⟨none, 0⟩

/-- `RawMemory::Swap`: exchanges `buffer_` and `capacity_` of the two handles;
returns the pair (state of `this`, state of `other`) after the call. -/
def RawMemory.SwapRM (self other : RawMemory) : RawMemory × RawMemory :=
  (other, self)

/-- `RawMemory(RawMemory&& other) noexcept { Swap(other); }`: the constructed
object starts default-initialized (`nullptr`, 0) and swaps with the source.
Returns (constructed object, source after the move). -/
def RawMemory.moveCtor (other : RawMemory) : RawMemory × RawMemory :=
  RawMemory.SwapRM RawMemory.mkDefault other

/-- `RawMemory::operator=(RawMemory&&)`: `if (rhs.buffer_ != buffer_) Swap(rhs);`.
Returns (state of `this`, state of `rhs`) after the call. -/
def RawMemory.moveAssign (self rhs : RawMemory) : RawMemory × RawMemory :=
  if rhs.buffer_ ≠ self.buffer_ then RawMemory.SwapRM self rhs else (self, rhs)

/-- Model of `Vector<T>`: `cap` is `data_.Capacity()`, `elems` lists the
constructed elements in slots `[0, size_)`, so `size_ = elems.length`. -/
structure Vector (T : Type) where
  cap : Nat
  elems : List T
  deriving DecidableEq, Repr

variable {T : Type}

/-- `Vector::Size()`. -/
def Vector.Size (v : Vector T) : Nat := v.elems.length

/-- `Vector::Capacity()`. -/
def Vector.Capacity (v : Vector T) : Nat := v.cap

/-- `Vector()`: default constructor, empty with capacity 0. -/
def Vector.mkDefault : Vector T := ⟨0, []⟩

/-- `explicit Vector(size_t size)`: allocates capacity `size` and
value-constructs `size` elements (`uninitialized_value_construct_n`);
value construction is modelled by `default`. -/
def Vector.mkSized [Inhabited T] (size : Nat) : Vector T :=
  ⟨size, List.replicate size default⟩

/-- `Vector(const Vector&)`: allocates capacity `other.size_` and copies the
`other.size_` elements (`uninitialized_copy_n`). -/
def Vector.copyCtor (other : Vector T) : Vector T :=
  ⟨other.elems.length, other.elems⟩

/-- `Vector(Vector&&)`: `data_ = std::move(other.data_); size_ =
std::exchange(other.size_, 0);` — the new vector takes the storage and size,
the source is left with a null block and size 0.  Returns
(constructed vector, source after the move). -/
def Vector.moveCtor (other : Vector T) : Vector T × Vector T :=
  (⟨other.cap, other.elems⟩, ⟨0, []⟩)

/-- `Vector::Swap`: swaps `data_` and `size_`; returns the pair
(state of `this`, state of `other`) after the call. -/
def Vector.SwapV (self other : Vector T) : Vector T × Vector T :=
  (other, self)

/-- `Vector::CopyElementsFromVector(rhs)` (used by copy assignment when
`rhs.size_ <= Capacity()`): `copy_n` over the first `min` elements, then
either `destroy_n` of the surplus old elements or `uninitialized_copy_n`
of the missing tail; finally `size_ = rhs.size_`. -/
def Vector.CopyElementsFromVector (self rhs : Vector T) : Vector T :=
  let copy_elem := if rhs.elems.length < self.elems.length
    then rhs.elems.length else self.elems.length
  let overwritten := rhs.elems.take copy_elem ++ self.elems.drop copy_elem
  if rhs.elems.length < self.elems.length then
    ⟨self.cap, overwritten.take rhs.elems.length⟩
  else
    ⟨self.cap, overwritten ++ rhs.elems.drop self.elems.length⟩

/-- `Vector::operator=(const Vector&)`.  `sameObj` models the pointer test
`this == &rhs`.  On the growth path (`rhs.size_ > Capacity()`) the source
builds a copy and swaps with it (copy-and-swap); otherwise it overwrites in
place via `CopyElementsFromVector`. -/
def Vector.copyAssign (self rhs : Vector T) (sameObj : Bool) : Vector T :=
  if sameObj then self
  else if rhs.elems.length > self.cap then
    (Vector.SwapV self (Vector.copyCtor rhs)).1
  else
    Vector.CopyElementsFromVector self rhs

/-- `Vector::operator=(Vector&&)`: `if (this != &rhs) Swap(rhs);`.
`sameObj` models `this == &rhs`; returns (state of `this`, state of `rhs`). -/
def Vector.moveAssign (self rhs : Vector T) (sameObj : Bool) : Vector T × Vector T :=
  if sameObj then (self, rhs) else Vector.SwapV self rhs

/-- `Vector::Reserve`: no-op when `new_capacity <= Capacity()`; otherwise
allocates a block of exactly `new_capacity`, transfers all `size_` element
values (`uninitialized_move_n` or `uninitialized_copy_n` — both preserve the
value sequence on success), destroys the old elements and swaps the blocks. -/
def Vector.Reserve (v : Vector T) (new_capacity : Nat) : Vector T :=
  if new_capacity ≤ v.cap then v
  else ⟨new_capacity, v.elems⟩

/-- `Vector::Resize`: shrinking destroys the trailing `size_ - new_size`
elements; growing reserves `new_size` and value-constructs the
`new_size - size_` new trailing elements. -/
def Vector.Resize [Inhabited T] (v : Vector T) (new_size : Nat) : Vector T :=
  if new_size = v.elems.length then v
  else
    let size_dif := if v.elems.length > new_size
      then v.elems.length - new_size else new_size - v.elems.length
    if v.elems.length > new_size then
      ⟨v.cap, v.elems.take new_size⟩
    else
      let v' := Vector.Reserve v new_size
      ⟨v'.cap, v'.elems ++ List.replicate size_dif default⟩

/-- `std::move_backward(begin() + i, end() - 1, end())` acting on the memory
image `l` (the `size_ + 1` constructed slots present at that point, indices
`0 … size_`): slots `(i, size_)` receive the value of the slot one to their
left; source slots keep their (moved-from) values. -/
def moveBackwardStep [Inhabited T] (l : List T) (i size_ : Nat) : List T :=
  (List.range l.length).map fun j =>
    if i + 1 ≤ j ∧ j < size_ then l.getD (j - 1) default else l.getD j default

/-- `Vector::Emplace(pos, args...)` with `i = pos - begin()`, returning the
new state and the returned iterator as an index into the new storage.
Three branches as in the source:
* `size_ == Capacity()`: grow to `size_ > 0 ? size_ * 2 : 1`; construct the
  new element at offset `i` of the new block and transfer the old elements
  around it (`uninitialized_move_n` of the first `i` to offset 0 and of the
  rest to offset `i + 1`).  This models the move-strategy transfer
  (`is_nothrow_move_constructible_v<T> || !is_copy_constructible_v<T>`); the
  copy-strategy branch writes the tail to the wrong offset and is modelled
  slot-exactly by `EmplaceGrowCopySlots` below.
* `pos == end()` (with spare capacity): delegates to `EmplaceBack`, which in
  this situation takes its non-growth branch: construct at `data_ + size_`.
* otherwise: build the value in a temporary, move-construct the last element
  into the slot `end()`, `move_backward` the range `[i, size_ - 1)` one slot
  right, move-assign the temporary into slot `i`. -/
def Vector.Emplace [Inhabited T] (v : Vector T) (i : Nat) (x : T) : Vector T × Nat :=
  if v.elems.length = v.cap then
    let new_size := if v.elems.length > 0 then v.elems.length * 2 else 1
    (⟨new_size, v.elems.take i ++ [x] ++ v.elems.drop i⟩, i)
  else if i = v.elems.length then
    (⟨v.cap, v.elems ++ [x]⟩, v.elems.length)
  else
    let l1 := v.elems ++ [v.elems.getD (v.elems.length - 1) default]
    let l2 := moveBackwardStep l1 i v.elems.length
    (⟨v.cap, l2.set i x⟩, i)

/-- `Vector::EmplaceBack(args...)`: when full, calls `Emplace(end(), ...)`
(which takes its growth branch) and returns a reference to the new last
element; otherwise constructs at `data_ + size_` and increments `size_`.
The returned reference is modelled as an index. -/
def Vector.EmplaceBack [Inhabited T] (v : Vector T) (x : T) : Vector T × Nat :=
  if v.elems.length = v.cap then
    let v' := (v.Emplace v.elems.length x).1
    (v', v'.elems.length - 1)
  else
    (⟨v.cap, v.elems ++ [x]⟩, v.elems.length)

/-- `Vector::PushBack` (both overloads): wrapper over `EmplaceBack`. -/
def Vector.PushBack [Inhabited T] (v : Vector T) (x : T) : Vector T :=
  (v.EmplaceBack x).1

/-- `Vector::Insert` (both overloads): wrapper over `Emplace`. -/
def Vector.Insert [Inhabited T] (v : Vector T) (i : Nat) (x : T) : Vector T × Nat :=
  v.Emplace i x

/-- `Vector::PopBack`: when nonempty, destroys the last element and
decrements `size_`. -/
def Vector.PopBack (v : Vector T) : Vector T :=
  if v.elems.length > 0 then ⟨v.cap, v.elems.take (v.elems.length - 1)⟩ else v

/-- `Vector::Erase(pos)` at the level of the vector's observable element
values: the elements after `i` are move-assigned one slot left and `size_`
is decremented, so the logical contents become
`take i ++ drop (i + 1)`.  The destruction behaviour at the boundary
(which slot `destroy_at` actually hits) is modelled slot-exactly by
`EraseSlots` below.  Returns the new state and `begin() + index`. -/
def Vector.Erase (v : Vector T) (i : Nat) : Vector T × Nat :=
  (⟨v.cap, v.elems.take i ++ v.elems.drop (i + 1)⟩, i)

/-! ### Slot-level models

Memory is a list of slots over the whole block; `some x` is a live
(constructed) object with value `x`, `none` is raw memory. -/

/-- `std::destroy_n(buf, n)` on a slot image: ends the lifetime of the first
`n` slots. -/
def destroyNSlots : List (Option T) → Nat → List (Option T)
  | slots, 0 => slots
  | [], _ + 1 => []
  | _ :: rest, k + 1 => none :: destroyNSlots rest k

/-- `std::destroy_at(buf + j)` on a slot image. -/
def destroyAtSlot (slots : List (Option T)) (j : Nat) : List (Option T) :=
  slots.set j none

/-- `std::move(begin() + i + 1, end(), begin() + i)` on a slot image with
logical size `size_`: slots `[i, size_ - 1)` receive the value of the slot to
their right (move assignment); the source slots keep their moved-from objects
alive. -/
def shiftLeftSlots (slots : List (Option T)) (i size_ : Nat) : List (Option T) :=
  (List.range slots.length).map fun j =>
    if i ≤ j ∧ j + 1 < size_ then slots.getD (j + 1) none else slots.getD j none

/-- Result of the slot-level `Erase` model: the block's slots, the new
`size_`, the returned index, the index `destroy_at` was applied to, and
whether that slot held a live object when it was destroyed. -/
structure EraseOutcome (T : Type) where
  slots : List (Option T)
  size_ : Nat
  ret : Nat
  destroyedIndex : Nat
  destroyedWasLive : Bool
  deriving DecidableEq, Repr

/-- Slot-level model of `Vector::Erase(pos)` with `i = pos - begin()` on a
block whose slots are `slots` and whose logical size is `size_`:
`std::move(begin() + i + 1, end(), begin() + i)`, then
`std::destroy_at(end())` — evaluated while `size_` is still the old size,
so at slot index `size_` — then `--size_`; returns `begin() + i`. -/
def EraseSlots (slots : List (Option T)) (size_ i : Nat) : EraseOutcome T :=
  let s1 := shiftLeftSlots slots i size_
  let d := size_
  { slots := destroyAtSlot s1 d
    size_ := size_ - 1
    ret := i
    destroyedIndex := d
    destroyedWasLive := (s1.getD d none).isSome }

/-- `uninitialized_copy_n`-style write of the values `src` into the slot image
`dst` starting at slot `base` (each write constructs an object there,
overwriting whatever the model previously recorded in the slot). -/
def writeSlots (dst : List (Option T)) (src : List T) (base : Nat) : List (Option T) :=
  (List.range dst.length).map fun j =>
    if base ≤ j ∧ j < base + src.length then src[j - base]? else dst.getD j none

/-- Slot-level model of the growth branch of `Vector::Emplace` under the
copy transfer strategy (the `else` of the `if constexpr`, chosen when `T` is
copy constructible and its move constructor may throw):
allocate `size_ > 0 ? size_ * 2 : 1` raw slots, construct the new element at
offset `dist`, `uninitialized_copy_n(data_, dist, new_data.GetAddress())`,
then `uninitialized_copy_n(data_ + dist, size_ - dist, new_data.GetAddress())`
— the source really passes `new_data.GetAddress()` as the destination of the
tail copy, not `new_data.GetAddress() + dist + 1`.  Returns the new block's
slots and the new `size_`. -/
def EmplaceGrowCopySlots (oldElems : List T) (dist : Nat) (x : T) :
    List (Option T) × Nat :=
  let new_size := if oldElems.length > 0 then oldElems.length * 2 else 1
  let b0 := List.replicate new_size (none : Option T)
  let b1 := b0.set dist (some x)
  let b2 := writeSlots b1 (oldElems.take dist) 0
  let b3 := writeSlots b2 (oldElems.drop dist) 0
  (b3, oldElems.length + 1)

/-! ### Failure-aware models

`copyF : T → Option T` is the element copy constructor (`none` = it throws);
`allocOk : Bool` tells whether `operator new` succeeds. -/

/-- The element-by-element phase of `std::uninitialized_copy_n`: constructs
copies until one copy constructor throws.  Returns the values successfully
constructed (in order) and whether the whole run succeeded. -/
def copyUntilThrow (copyF : T → Option T) : List T → List T × Bool
  | [] => ([], true)
  | x :: xs =>
    match copyF x with
    | none => ([], false)
    | some y =>
      let r := copyUntilThrow copyF xs
      (y :: r.1, r.2)

/-- Outcome of a fallible operation: the vector afterwards (unchanged when the
operation threw), whether it threw, and the slot image of the abandoned new
block after unwinding (`[]` when no block was abandoned). -/
structure FailOutcome (T : Type) where
  state : Vector T
  threw : Bool
  abandoned : List (Option T)
  deriving DecidableEq, Repr

/-- Failure-aware model of `Vector::Reserve` on the copy transfer strategy
(the fallible one; the move strategy is selected only when moves cannot
throw).  `new_capacity <= Capacity()` returns immediately.  Otherwise
`RawMemory<T> new_data(new_capacity)` may throw (`allocOk = false`) before
anything is mutated.  Then `uninitialized_copy_n(data_, size_, ...)` copies
element-by-element; if a copy constructor throws it destroys the objects it
had constructed and rethrows, `new_data`'s destructor releases the raw block,
and `data_` / `size_` were never touched.  On success the blocks are swapped
and the old elements destroyed. -/
def ReserveFallible (copyF : T → Option T) (allocOk : Bool) (v : Vector T)
    (new_capacity : Nat) : FailOutcome T :=
  if new_capacity ≤ v.cap then ⟨v, false, []⟩
  else if allocOk = false then ⟨v, true, []⟩
  else
    let r := copyUntilThrow copyF v.elems
    if r.2 then ⟨⟨new_capacity, r.1⟩, false, []⟩
    else
      let block := r.1.map some ++
        List.replicate (new_capacity - r.1.length) (none : Option T)
      ⟨v, true, destroyNSlots block r.1.length⟩

/-- Failure-aware model of `Vector::operator=(const Vector&)` on its growth
path (`rhs.size_ > Capacity()`): `Vector rhs_copy(rhs); Swap(rhs_copy);`.
The copy constructor allocates a block of `rhs.size_` (may throw with nothing
mutated) and runs `uninitialized_copy_n(rhs.data_, rhs.size_, ...)`, which on
a throw destroys what it constructed; the half-built temporary's `RawMemory`
member releases the raw block and `*this` was never touched.  The non-growth
path overwrites in place via `CopyElementsFromVector` (not a path the strong
guarantee covers; modelled with the infallible in-place copy). -/
def CopyAssignFallible (copyF : T → Option T) (allocOk : Bool)
    (self rhs : Vector T) : FailOutcome T :=
  if rhs.elems.length > self.cap then
    if allocOk = false then ⟨self, true, []⟩
    else
      let r := copyUntilThrow copyF rhs.elems
      if r.2 then ⟨⟨rhs.elems.length, r.1⟩, false, []⟩
      else
        let block := r.1.map some ++
          List.replicate (rhs.elems.length - r.1.length) (none : Option T)
        ⟨self, true, destroyNSlots block r.1.length⟩
  else
    ⟨Vector.CopyElementsFromVector self rhs, false, []⟩

/-- Failure-aware model of allocation failure inside `Vector::Emplace`:
on the growth branch, `RawMemory<T> new_data(new_size)` throws before any
element or member of the vector is touched. -/
def EmplaceAllocFallible [Inhabited T] (allocOk : Bool) (v : Vector T)
    (i : Nat) (x : T) : FailOutcome T :=
  if v.elems.length = v.cap ∧ allocOk = false then ⟨v, true, []⟩
  else ⟨(v.Emplace i x).1, false, []⟩

/-- States of `Vector<T>` reachable from the public constructors by the public
operations.  `Emplace`, `Insert` and `Erase` carry the source's asserted
iterator preconditions (`begin() <= pos <= end()` resp. `< end()`); the
two-vector operations produce both resulting states. -/
inductive Reachable {T : Type} [Inhabited T] : Vector T → Prop where
  | mkDefault : Reachable Vector.mkDefault
  | mkSized (n : Nat) : Reachable (Vector.mkSized n)
  | copyCtor (v : Vector T) : Reachable v → Reachable (Vector.copyCtor v)
  | moveCtorFst (v : Vector T) : Reachable v → Reachable (Vector.moveCtor v).1
  | moveCtorSnd (v : Vector T) : Reachable v → Reachable (Vector.moveCtor v).2
  | copyAssign (v rhs : Vector T) (b : Bool) :
      Reachable v → Reachable rhs → Reachable (Vector.copyAssign v rhs b)
  | moveAssignFst (v rhs : Vector T) (b : Bool) :
      Reachable v → Reachable rhs → Reachable (Vector.moveAssign v rhs b).1
  | moveAssignSnd (v rhs : Vector T) (b : Bool) :
      Reachable v → Reachable rhs → Reachable (Vector.moveAssign v rhs b).2
  | reserve (v : Vector T) (n : Nat) : Reachable v → Reachable (v.Reserve n)
  | resize (v : Vector T) (n : Nat) : Reachable v → Reachable (v.Resize n)
  | pushBack (v : Vector T) (x : T) : Reachable v → Reachable (v.PushBack x)
  | emplaceBack (v : Vector T) (x : T) : Reachable v → Reachable (v.EmplaceBack x).1
  | emplace (v : Vector T) (i : Nat) (x : T) :
      i ≤ v.elems.length → Reachable v → Reachable (v.Emplace i x).1
  | insert (v : Vector T) (i : Nat) (x : T) :
      i ≤ v.elems.length → Reachable v → Reachable (v.Insert i x).1
  | erase (v : Vector T) (i : Nat) :
      i < v.elems.length → Reachable v → Reachable (v.Erase i).1
  | popBack (v : Vector T) : Reachable v → Reachable v.PopBack
  | swapFst (a b : Vector T) :
      Reachable a → Reachable b → Reachable (Vector.SwapV a b).1
  | swapSnd (a b : Vector T) :
      Reachable a → Reachable b → Reachable (Vector.SwapV a b).2

/-! ## Helper lemmas -/

/-- The in-place overwrite of copy assignment nets out to replacing the
element sequence with `rhs`'s, keeping the capacity. -/
theorem CopyElementsFromVector_eq (self rhs : Vector T) :
    Vector.CopyElementsFromVector self rhs = ⟨self.cap, rhs.elems⟩ := by
  unfold Vector.CopyElementsFromVector
  by_cases h : rhs.elems.length < self.elems.length
  · simp only [h, if_true]
    rw [List.take_left' (by simp [List.length_take])]
    simp [List.take_length]
  · simp only [h, if_false, List.drop_length, List.append_nil,
      List.take_append_drop]

theorem length_moveBackwardStep [Inhabited T] (l : List T) (i s : Nat) :
    (moveBackwardStep l i s).length = l.length := by
  simp [moveBackwardStep]

theorem length_emplace [Inhabited T] (v : Vector T) (i : Nat) (x : T) :
    (v.Emplace i x).1.elems.length = v.elems.length + 1 := by
  unfold Vector.Emplace
  split
  · simp [List.length_take, List.length_drop]; omega
  · split
    · simp
    · simp [length_moveBackwardStep]

theorem emplaceBack_elems [Inhabited T] (v : Vector T) (x : T) :
    (v.EmplaceBack x).1.elems = v.elems ++ [x] := by
  unfold Vector.EmplaceBack Vector.Emplace
  split
  · simp [List.take_length, List.drop_length]
  · simp

theorem pushBack_elems [Inhabited T] (v : Vector T) (x : T) :
    (v.PushBack x).elems = v.elems ++ [x] := by
  simp [Vector.PushBack, emplaceBack_elems]

theorem foldl_pushBack_elems [Inhabited T] (xs : List T) (v : Vector T) :
    (xs.foldl Vector.PushBack v).elems = v.elems ++ xs := by
  induction xs generalizing v with
  | nil => simp
  | cons y ys ih => simp [List.foldl_cons, ih, pushBack_elems]

theorem destroyNSlots_all_none (ys : List T) (k : Nat) :
    ∀ s ∈ destroyNSlots (ys.map some ++ List.replicate k (none : Option T))
      ys.length, s = none := by
  induction ys with
  | nil =>
    intro s hs
    simp only [List.map_nil, List.nil_append, List.length_nil] at hs
    exact List.eq_of_mem_replicate (by simpa [destroyNSlots] using hs)
  | cons y ys ih =>
    intro s hs
    simp only [List.map_cons, List.cons_append, List.length_cons,
      destroyNSlots, List.mem_cons] at hs
    rcases hs with h | h
    · exact h
    · exact ih s h

theorem getD_append_last [Inhabited T] (l : List T) (k : Nat)
    (hk : k < l.length + 1) (h0 : 0 < l.length) :
    (l ++ [l.getD (l.length - 1) default]).getD k default =
      if k < l.length then l.getD k default
      else l.getD (l.length - 1) default := by
  have hlen : k < (l ++ [l.getD (l.length - 1) default]).length := by
    simp
    omega
  by_cases hk2 : k < l.length
  · rw [if_pos hk2, List.getD_eq_getElem _ _ hlen, List.getD_eq_getElem _ _ hk2]
    exact List.getElem_append_left hk2
  · rw [if_neg hk2]
    have hk3 : k = l.length := by omega
    subst hk3
    rw [List.getD_eq_getElem _ _ hlen,
      List.getElem_append_right (Nat.le_refl _)]
    simp

/-- The non-growth, non-end branch of `Emplace` — move the last element into
the one-past-end slot, shift `[i, size_ - 1)` right, write the temporary into
slot `i` — produces exactly the insertion of `x` at position `i`. -/
theorem middle_branch_eq_insert [Inhabited T] (l : List T) (i : Nat) (x : T)
    (h : i < l.length) :
    (moveBackwardStep (l ++ [l.getD (l.length - 1) default]) i l.length).set i x
      = l.take i ++ x :: l.drop i := by
  have h0 : 0 < l.length := by omega
  apply List.ext_getElem
  · simp [length_moveBackwardStep, List.length_take]
    omega
  · intro j hj1 hj2
    have hj : j < l.length + 1 := by
      simpa [length_moveBackwardStep] using hj1
    have hjm : j < (moveBackwardStep (l ++ [l.getD (l.length - 1) default]) i
        l.length).length := by
      simpa [length_moveBackwardStep] using hj
    rw [List.getElem_set]
    have htake : (l.take i).length = i := by
      simp [List.length_take]
      omega
    by_cases hij : i = j
    · subst hij
      simp only [if_pos rfl]
      rw [List.getElem_append_right (by omega : (l.take i).length ≤ i)]
      simp [htake]
    · simp only [if_neg hij]
      have hmb : (moveBackwardStep (l ++ [l.getD (l.length - 1) default]) i
          l.length).getD j default =
          if i + 1 ≤ j ∧ j < l.length then
            (l ++ [l.getD (l.length - 1) default]).getD (j - 1) default
          else (l ++ [l.getD (l.length - 1) default]).getD j default := by
        rw [List.getD_eq_getElem _ _ hjm]
        unfold moveBackwardStep
        simp only [List.getElem_map, List.getElem_range]
      rw [← List.getD_eq_getElem
        (moveBackwardStep (l ++ [l.getD (l.length - 1) default]) i l.length)
        default hjm, hmb]
      by_cases hji : j < i
      · -- untouched low slots: value l[j]
        rw [if_neg (by omega), getD_append_last l j hj h0,
          if_pos (by omega : j < l.length)]
        rw [List.getElem_append_left (by rw [htake]; omega :
          j < (l.take i).length)]
        rw [List.getD_eq_getElem _ _ (by omega : j < l.length)]
        simp
      · -- shifted high slots: value l[j-1]
        have hji2 : i < j := by omega
        have hcons : j - (l.take i).length < (x :: l.drop i).length := by
          simp [htake, List.length_drop]
          omega
        have hsplit : (x :: l.drop i).getD (j - (l.take i).length) default =
            l.getD (j - 1) default := by
          obtain ⟨k, hk⟩ : ∃ k, j - (l.take i).length = k + 1 :=
            ⟨j - i - 1, by rw [htake]; omega⟩
          rw [hk, List.getD_cons_succ]
          have hkl : k < (l.drop i).length := by
            rw [htake] at hk
            simp [List.length_drop]
            omega
          rw [List.getD_eq_getElem _ _ hkl,
            List.getD_eq_getElem _ _ (by omega : j - 1 < l.length),
            List.getElem_drop]
          have hik : i + k = j - 1 := by
            rw [htake] at hk
            omega
          simp only [hik]
        by_cases hjn : j < l.length
        · rw [if_pos ⟨by omega, hjn⟩, getD_append_last l (j - 1) (by omega) h0,
            if_pos (by omega : j - 1 < l.length)]
          rw [List.getElem_append_right (by rw [htake]; omega :
            (l.take i).length ≤ j)]
          rw [← List.getD_eq_getElem (x :: l.drop i) default hcons]
          exact hsplit.symm
        · rw [if_neg (by omega), getD_append_last l j hj h0,
            if_neg (by omega)]
          rw [List.getElem_append_right (by rw [htake]; omega :
            (l.take i).length ≤ j)]
          rw [← List.getD_eq_getElem (x :: l.drop i) default hcons, hsplit]
          have hjl : j = l.length := by omega
          simp only [hjl]

/-- The observable effect of `Emplace` (under the move transfer strategy when
growth is needed): insertion of `x` at logical position `i`, returning `i`. -/
theorem emplace_elems [Inhabited T] (v : Vector T) (i : Nat) (x : T)
    (h : i ≤ v.elems.length) :
    (v.Emplace i x).1.elems = v.elems.take i ++ x :: v.elems.drop i ∧
    (v.Emplace i x).2 = i := by
  unfold Vector.Emplace
  split
  · constructor
    · simp
    · rfl
  · split
    · rename_i h2
      subst h2
      simp [List.take_length, List.drop_length]
    · rename_i h1 h2
      have hi : i < v.elems.length := by omega
      constructor
      · exact middle_branch_eq_insert v.elems i x hi
      · rfl

theorem cap_emplace [Inhabited T] (v : Vector T) (i : Nat) (x : T) :
    (v.Emplace i x).1.cap =
      if v.elems.length = v.cap then
        (if v.elems.length > 0 then v.elems.length * 2 else 1)
      else v.cap := by
  unfold Vector.Emplace
  by_cases h : v.elems.length = v.cap
  · simp [h]
  · by_cases h2 : i = v.elems.length
    · simp [h, h2]
    · simp [h, h2]

theorem inv_emplace [Inhabited T] (v : Vector T) (i : Nat) (x : T)
    (h : v.elems.length ≤ v.cap) :
    (v.Emplace i x).1.elems.length ≤ (v.Emplace i x).1.cap := by
  rw [length_emplace, cap_emplace]
  split_ifs with h1 h2 <;> omega

theorem inv_emplaceBack [Inhabited T] (v : Vector T) (x : T)
    (h : v.elems.length ≤ v.cap) :
    (v.EmplaceBack x).1.elems.length ≤ (v.EmplaceBack x).1.cap := by
  unfold Vector.EmplaceBack
  split_ifs with h1
  · exact inv_emplace v v.elems.length x h
  · simp only [List.length_append, List.length_cons, List.length_nil]
    omega

/-! ## Claims -/

/-- C1: the claim states that `Erase(pos)` destroys exactly the vacated last
slot (old index `size_ - 1`) and touches no slot at or past the logical end.
The code instead evaluates `std::destroy_at(end())` *before* decrementing
`size_`: on the block `[1, 2, 3]` (capacity 4) with `Erase(begin())`,
`destroy_at` hits slot index 3 — the old one-past-the-end raw slot, not a
live object — while the moved-from object in slot 2 (old index `size_ - 1`)
is left alive past the new logical end. -/
theorem C1_erase_destroy_at_eval :
    (EraseSlots ([some 1, some 2, some 3, none] : List (Option Nat)) 3
      0).destroyedIndex = 3 ∧
    ¬ ((EraseSlots ([some 1, some 2, some 3, none] : List (Option Nat)) 3
      0).destroyedIndex = 3 - 1) ∧
    (EraseSlots ([some 1, some 2, some 3, none] : List (Option Nat)) 3
      0).destroyedWasLive = false ∧
    ((EraseSlots ([some 1, some 2, some 3, none] : List (Option Nat)) 3
      0).slots.getD 2 none).isSome = true ∧
    (EraseSlots ([some 1, some 2, some 3, none] : List (Option Nat)) 3
      0).size_ = 2 ∧
    (EraseSlots ([some 1, some 2, some 3, none] : List (Option Nat)) 3
      0).ret = 0 ∧
    ((EraseSlots ([some 1, some 2, some 3, none] : List (Option Nat)) 3
      0).slots.take 2 = [some 2, some 3]) := by decide

/-- C2: the claim requires `Emplace(pos, args...)` to yield the old elements
with the new one inserted, under both transfer strategies.  Under the
copy-based strategy the source passes `new_data.GetAddress()` — not
`new_data.GetAddress() + dist + 1` — as the destination of the tail copy:
emplacing 99 at index 1 of `[1, 2, 3]` (full, so growth to capacity 6) leaves
the new block as `[2, 3, ⊥, ⊥, ⊥, ⊥]` with `size_ = 4` instead of
`[1, 99, 2, 3, ⊥, ⊥]`. -/
theorem C2_emplace_copy_strategy_eval :
    (EmplaceGrowCopySlots ([1, 2, 3] : List Nat) 1 99).1 =
      [some 2, some 3, none, none, none, none] ∧
    ¬ ((EmplaceGrowCopySlots ([1, 2, 3] : List Nat) 1 99).1 =
      [some 1, some 99, some 2, some 3, none, none]) ∧
    (EmplaceGrowCopySlots ([1, 2, 3] : List Nat) 1 99).2 = 4 := by decide

/-- C3 (counterexample): move *assignment* of `RawMemory` does not leave the
source empty when the target previously owned a block: assigning from
`(buffer 1, capacity 3)` into `(buffer 0, capacity 5)` leaves the source
holding `(buffer 0, capacity 5)`, not `(null, 0)`. -/
theorem C3_moveAssign_counterexample :
    ¬ (((RawMemory.moveAssign ⟨some 0, 5⟩ ⟨some 1, 3⟩).2).buffer_ = none ∧
       ((RawMemory.moveAssign ⟨some 0, 5⟩ ⟨some 1, 3⟩).2).capacity_ = 0) := by
  decide

/-- C3 (amended): after move *construction* the source is empty (null buffer,
capacity 0).  Move *assignment* swaps the two handles, so the moved-from
source is left holding the target's prior buffer and capacity; it ends up
empty exactly when the target was empty beforehand. -/
theorem C3_move_semantics :
    (∀ other : RawMemory, (RawMemory.moveCtor other).2 = RawMemory.mkDefault) ∧
    (∀ self rhs : RawMemory, rhs.buffer_ ≠ self.buffer_ →
        RawMemory.moveAssign self rhs = (rhs, self)) ∧
    (∀ self rhs : RawMemory, self = RawMemory.mkDefault → rhs.buffer_ ≠ none →
        (RawMemory.moveAssign self rhs).2 = RawMemory.mkDefault) := by
  refine ⟨fun other => rfl, fun self rhs h => ?_, fun self rhs h1 h2 => ?_⟩
  · simp [RawMemory.moveAssign, RawMemory.SwapRM, h]
  · subst h1
    simp [RawMemory.moveAssign, RawMemory.SwapRM, RawMemory.mkDefault, h2]

/-- C3 (witness for the amended statement): instances of all three parts. -/
theorem C3_move_semantics_witness :
    (RawMemory.moveCtor ⟨some 3, 7⟩).2 = RawMemory.mkDefault ∧
    RawMemory.moveAssign ⟨some 0, 5⟩ ⟨some 1, 3⟩ = (⟨some 1, 3⟩, ⟨some 0, 5⟩) ∧
    (RawMemory.moveAssign RawMemory.mkDefault ⟨some 2, 4⟩).2 =
      RawMemory.mkDefault :=
  ⟨C3_move_semantics.1 ⟨some 3, 7⟩,
   C3_move_semantics.2.1 ⟨some 0, 5⟩ ⟨some 1, 3⟩ (by decide),
   C3_move_semantics.2.2 RawMemory.mkDefault ⟨some 2, 4⟩ rfl (by decide)⟩

/-- C4: on the failure paths — allocation failure anywhere, an element copy
constructor throwing during the copy-based transfer of `Reserve`, or during
the copy-and-swap growth path of copy assignment — the vector is left exactly
as before the call and every element already constructed in the abandoned new
block has been destroyed. -/
theorem C4_strong_exception_safety {T : Type} [Inhabited T]
    (copyF : T → Option T) (allocOk : Bool) (v rhs : Vector T) (n i : Nat)
    (x : T) :
    ((ReserveFallible copyF allocOk v n).threw = true →
        (ReserveFallible copyF allocOk v n).state = v ∧
        ∀ s ∈ (ReserveFallible copyF allocOk v n).abandoned, s = none) ∧
    ((CopyAssignFallible copyF allocOk v rhs).threw = true →
        (CopyAssignFallible copyF allocOk v rhs).state = v ∧
        ∀ s ∈ (CopyAssignFallible copyF allocOk v rhs).abandoned, s = none) ∧
    ((EmplaceAllocFallible allocOk v i x).threw = true →
        (EmplaceAllocFallible allocOk v i x).state = v ∧
        (EmplaceAllocFallible allocOk v i x).abandoned = []) := by
  refine ⟨?_, ?_, ?_⟩
  · simp only [ReserveFallible]
    split_ifs with h1 h2 h3
    · intro h; simp at h
    · intro _; exact ⟨rfl, by simp⟩
    · intro h; simp at h
    · intro _
      exact ⟨rfl, destroyNSlots_all_none _ _⟩
  · simp only [CopyAssignFallible]
    split_ifs with h1 h2 h3
    · intro _; exact ⟨rfl, by simp⟩
    · intro h; simp at h
    · intro _
      exact ⟨rfl, destroyNSlots_all_none _ _⟩
    · intro h; simp at h
  · simp only [EmplaceAllocFallible]
    split_ifs with h1
    · intro _; exact ⟨rfl, rfl⟩
    · intro h; simp at h

/-- C4 (witness): a copy constructor that always throws makes `Reserve 2` on
a full one-element vector fail with the vector unchanged and the abandoned
block fully destroyed; same for copy assignment needing growth; allocation
failure during a full `Emplace` leaves the vector unchanged. -/
theorem C4_witness :
    ((ReserveFallible (fun _ => (none : Option Nat)) true ⟨1, [0]⟩ 2).state =
        ⟨1, [0]⟩ ∧
      ∀ s ∈ (ReserveFallible (fun _ => (none : Option Nat)) true ⟨1, [0]⟩
        2).abandoned, s = none) ∧
    ((CopyAssignFallible (fun _ => (none : Option Nat)) true ⟨1, [0]⟩
        ⟨2, [5, 6]⟩).state = ⟨1, [0]⟩ ∧
      ∀ s ∈ (CopyAssignFallible (fun _ => (none : Option Nat)) true ⟨1, [0]⟩
        ⟨2, [5, 6]⟩).abandoned, s = none) ∧
    ((EmplaceAllocFallible false (⟨1, [0]⟩ : Vector Nat) 0 7).state =
        ⟨1, [0]⟩ ∧
      (EmplaceAllocFallible false (⟨1, [0]⟩ : Vector Nat) 0 7).abandoned =
        []) :=
  ⟨(C4_strong_exception_safety (fun _ => none) true ⟨1, [0]⟩ ⟨2, [5, 6]⟩ 2 0
      7).1 (by decide),
   (C4_strong_exception_safety (fun _ => none) true ⟨1, [0]⟩ ⟨2, [5, 6]⟩ 2 0
      7).2.1 (by decide),
   (C4_strong_exception_safety (fun _ => none) false ⟨1, [0]⟩ ⟨2, [5, 6]⟩ 2 0
      7).2.2 (by decide)⟩

/-- C5: any insertion into a full vector (`Emplace`, `EmplaceBack`,
`PushBack`, `Insert`) grows the capacity to exactly
`max(1, 2 * old_capacity)`. -/
theorem C5_growth_policy {T : Type} [Inhabited T] (v : Vector T) (i : Nat)
    (x : T) (h : v.Size = v.Capacity) :
    (v.Emplace i x).1.Capacity = max 1 (2 * v.Capacity) ∧
    (v.EmplaceBack x).1.Capacity = max 1 (2 * v.Capacity) ∧
    (v.PushBack x).Capacity = max 1 (2 * v.Capacity) ∧
    (v.Insert i x).1.Capacity = max 1 (2 * v.Capacity) := by
  simp only [Vector.Size, Vector.Capacity] at h
  have hcap : ∀ j, (v.Emplace j x).1.cap = max 1 (2 * v.cap) := by
    intro j
    rw [cap_emplace]
    rw [if_pos h, h]
    rcases Nat.eq_zero_or_pos v.cap with h0 | h0
    · simp [h0]
    · rw [if_pos h0]
      omega
  have hback : (v.EmplaceBack x).1.cap = max 1 (2 * v.cap) := by
    unfold Vector.EmplaceBack
    rw [if_pos h]
    exact hcap v.elems.length
  refine ⟨hcap i, hback, ?_, hcap i⟩
  unfold Vector.PushBack
  exact hback

/-- C5 (witness): a full vector of capacity 2 grows to capacity 4 under all
four insertion entry points. -/
theorem C5_growth_policy_witness :
    ((⟨2, [5, 6]⟩ : Vector Nat).Emplace 0 7).1.Capacity =
      max 1 (2 * (⟨2, [5, 6]⟩ : Vector Nat).Capacity) ∧
    ((⟨2, [5, 6]⟩ : Vector Nat).EmplaceBack 7).1.Capacity =
      max 1 (2 * (⟨2, [5, 6]⟩ : Vector Nat).Capacity) ∧
    ((⟨2, [5, 6]⟩ : Vector Nat).PushBack 7).Capacity =
      max 1 (2 * (⟨2, [5, 6]⟩ : Vector Nat).Capacity) ∧
    ((⟨2, [5, 6]⟩ : Vector Nat).Insert 0 7).1.Capacity =
      max 1 (2 * (⟨2, [5, 6]⟩ : Vector Nat).Capacity) :=
  C5_growth_policy ⟨2, [5, 6]⟩ 0 7 rfl

/-- C6: `Reserve(n)` with `n <= capacity` changes nothing; with
`n > capacity` it yields capacity at least `n` while the size and the element
sequence are unchanged. -/
theorem C6_reserve_contract {T : Type} (v : Vector T) (n : Nat) :
    (n ≤ v.Capacity → v.Reserve n = v) ∧
    (v.Capacity < n →
        n ≤ (v.Reserve n).Capacity ∧ (v.Reserve n).Size = v.Size ∧
        (v.Reserve n).elems = v.elems) := by
  simp only [Vector.Capacity, Vector.Size]
  constructor
  · intro h
    unfold Vector.Reserve
    rw [if_pos h]
  · intro h
    unfold Vector.Reserve
    rw [if_neg (by omega)]
    exact ⟨Nat.le_refl n, rfl, rfl⟩

/-- C6 (witness): both branches at a concrete vector. -/
theorem C6_reserve_contract_witness :
    ((⟨3, [1, 2]⟩ : Vector Nat).Reserve 2 = ⟨3, [1, 2]⟩) ∧
    (5 ≤ ((⟨3, [1, 2]⟩ : Vector Nat).Reserve 5).Capacity ∧
      ((⟨3, [1, 2]⟩ : Vector Nat).Reserve 5).Size =
        (⟨3, [1, 2]⟩ : Vector Nat).Size ∧
      ((⟨3, [1, 2]⟩ : Vector Nat).Reserve 5).elems =
        (⟨3, [1, 2]⟩ : Vector Nat).elems) :=
  ⟨(C6_reserve_contract ⟨3, [1, 2]⟩ 2).1 (by decide),
   (C6_reserve_contract ⟨3, [1, 2]⟩ 5).2 (by decide)⟩

/-- C7: every vector reachable from a default-, sized-, copy- or
move-constructed vector through the public operations satisfies
`size <= capacity`. -/
theorem C7_size_le_capacity {T : Type} [Inhabited T] (v : Vector T)
    (h : Reachable v) : v.Size ≤ v.Capacity := by
  simp only [Vector.Size, Vector.Capacity]
  induction h with
  | mkDefault => simp [Vector.mkDefault]
  | mkSized n => simp [Vector.mkSized]
  | copyCtor w hw ih => simp [Vector.copyCtor]
  | moveCtorFst w hw ih => simpa [Vector.moveCtor] using ih
  | moveCtorSnd w hw ih => simp [Vector.moveCtor]
  | copyAssign w rhs b hw hrhs ih ihr =>
      unfold Vector.copyAssign
      split_ifs with h1 h2
      · exact ih
      · simp [Vector.SwapV, Vector.copyCtor]
      · rw [CopyElementsFromVector_eq]
        simp only
        omega
  | moveAssignFst w rhs b hw hrhs ih ihr =>
      unfold Vector.moveAssign Vector.SwapV
      split_ifs with h1
      · exact ih
      · exact ihr
  | moveAssignSnd w rhs b hw hrhs ih ihr =>
      unfold Vector.moveAssign Vector.SwapV
      split_ifs with h1
      · exact ihr
      · exact ih
  | reserve w n hw ih =>
      unfold Vector.Reserve
      split_ifs with h1
      · exact ih
      · show w.elems.length ≤ n
        omega
  | resize w n hw ih =>
      unfold Vector.Resize Vector.Reserve
      split_ifs with h1 h2 h3
      · exact ih
      · show (w.elems.take n).length ≤ w.cap
        simp only [List.length_take]
        omega
      · show (w.elems ++ List.replicate (n - w.elems.length) default).length
          ≤ w.cap
        simp only [List.length_append, List.length_replicate]
        omega
      · show (w.elems ++ List.replicate (n - w.elems.length) default).length
          ≤ n
        simp only [List.length_append, List.length_replicate]
        omega
  | pushBack w x hw ih => exact inv_emplaceBack w x ih
  | emplaceBack w x hw ih => exact inv_emplaceBack w x ih
  | emplace w i x hle hw ih => exact inv_emplace w i x ih
  | insert w i x hle hw ih => exact inv_emplace w i x ih
  | erase w i hlt hw ih =>
      show (w.elems.take i ++ w.elems.drop (i + 1)).length ≤ w.cap
      simp only [List.length_append, List.length_take, List.length_drop]
      omega
  | popBack w hw ih =>
      unfold Vector.PopBack
      split_ifs with h1
      · show (w.elems.take (w.elems.length - 1)).length ≤ w.cap
        simp only [List.length_take]
        omega
      · exact ih
  | swapFst a b ha hb iha ihb => exact ihb
  | swapSnd a b ha hb iha ihb => exact iha

/-- C7 (witness): the invariant at a concrete reachable state. -/
theorem C7_size_le_capacity_witness :
    (Vector.PushBack (Vector.mkDefault : Vector Nat) 5).Size ≤
      (Vector.PushBack (Vector.mkDefault : Vector Nat) 5).Capacity :=
  C7_size_le_capacity _
    (Reachable.pushBack Vector.mkDefault 5 Reachable.mkDefault)

/-- C8: `Emplace(end(), args...)` and `EmplaceBack(args...)` produce the same
resulting vector and refer to the same new element, with and without spare
capacity. -/
theorem C8_emplace_end_eq_emplace_back {T : Type} [Inhabited T]
    (v : Vector T) (x : T) :
    v.Emplace v.elems.length x = v.EmplaceBack x := by
  simp only [Vector.Emplace, Vector.EmplaceBack]
  by_cases h : v.elems.length = v.cap
  · simp [h, List.take_length, List.drop_length]
  · simp [h]

/-- C9: pushing any finite sequence of values into an initially empty vector
and then iterating yields exactly that sequence in push order. -/
theorem C9_pushback_order {T : Type} [Inhabited T] (xs : List T) :
    (xs.foldl Vector.PushBack Vector.mkDefault).elems = xs := by
  rw [foldl_pushBack_elems]
  simp [Vector.mkDefault]

/-- C10: self-assignment is a no-op: both copy assignment and move assignment
with `this == &rhs` (the `sameObj` flag) leave the vector unchanged. -/
theorem C10_self_assignment {T : Type} (v : Vector T) :
    Vector.copyAssign v v true = v ∧ Vector.moveAssign v v true = (v, v) := by
  constructor
  · rfl
  · rfl

end AdvVector
